import Mathlib

/-!
Verification of the CannabisDB key-value server (src/server.rs).

The server is embedded shallowly: strings are lists of characters,
the Rust `splitn(3, " ")` tokenizer, `Request::parse`, the `HashMap`
store operations and `Database::process_line` become executable Lean
functions, and the log-append side effect is made explicit as a list
of appended records together with a boolean oracle telling whether the
append call would succeed.
-/

/-- Strings are modelled as lists of characters. -/
abbrev Str := List Char

/-- Convert a Lean string literal to the character-list model. -/
def str (s : String) : Str := s.toList

/-- Rust `char::to_ascii_uppercase`: ASCII letters a..z map to A..Z,
every other character is unchanged. -/
def toAsciiUpper (c : Char) : Char :=
  if 97 ≤ c.toNat ∧ c.toNat ≤ 122 then Char.ofNat (c.toNat - 32) else c

/-- Split a character list at the first occurrence of `c`: returns the
part before and the part after that occurrence, or `none` when `c` does
not occur. -/
def splitFirst (c : Char) : Str → Option (Str × Str)
  | [] => none
  | x :: xs =>
    if x = c then some ([], xs)
    else
      match splitFirst c xs with
      | none => none
      | some (a, b) => some (x :: a, b)

/-- Rust `str::splitn(n, " ")` with a single-character separator:
at most `n` pieces, the last piece is the unsplit remainder. -/
def splitn (c : Char) : Nat → Str → List Str
  | 0, _ => []
  | 1, s => [s]
  | n + 2, s =>
    match splitFirst c s with
    | none => [s]
    | some (a, b) => a :: splitn c (n + 1) b

instance {ε α : Type} [DecidableEq ε] [DecidableEq α] :
    DecidableEq (Except ε α) := fun x y =>
  match x, y with
  | .error a, .error b =>
    if h : a = b then .isTrue (by rw [h]) else .isFalse (by simp [h])
  | .ok a, .ok b =>
    if h : a = b then .isTrue (by rw [h]) else .isFalse (by simp [h])
  | .error _, .ok _ => .isFalse (by simp)
  | .ok _, .error _ => .isFalse (by simp)

/-- The parsed client requests (`enum Request` in src/server.rs). -/
inductive Request
  | Exit : Request
  | Ping (msg : Str)
  | Get (key : Str)
  | Del (key : Str)
  | Put (key : Str) (value : Str)
deriving DecidableEq

/-- The responses (`enum Response` in src/server.rs). -/
inductive Response
  | Value (key : Str) (value : Str)
  | Put (key : Str) (value : Str)
  | Del (key : Str)
  | Error (msg : Str)
  | Message (msg : Str)
deriving DecidableEq

/-- ASCII apostrophe, used in two parse error messages. -/
def apos : Char := Char.ofNat 39

/-- ASCII grave accent, present in the DEL error message of the source. -/
def grave : Char := Char.ofNat 96

def errGetNoKey : Str := str "GET must be followed by a key"

def errGetTrailing : Str :=
  str "GET" ++ [apos] ++ str "s key must not be followed by anything"

def errPutNoKey : Str := str "PUT must be followed by a key"

def errPutNoValue : Str := str "PUT needs a value"

def errDelNoKey : Str := str "DEL must be followed by a key"

def errDelTrailing : Str :=
  str "DEL" ++ [grave, apos] ++ str "s key must not be followed by anything"

/-- The dispatch on the uppercased command word and the remaining
pieces of the `splitn` iterator, exactly as in `Request::parse`. -/
def dispatch (command : Str) (args : List Str) : Except Str Request :=
  if command = str "GET" then
    match args with
    | [] => .error errGetNoKey
    | [key] => .ok (.Get key)
    | _ :: _ :: _ => .error errGetTrailing
  else if command = str "PUT" then
    match args with
    | [] => .error errPutNoKey
    | [_] => .error errPutNoValue
    | key :: value :: _ => .ok (.Put key value)
  else if command = str "DEL" then
    match args with
    | [] => .error errDelNoKey
    | [key] => .ok (.Del key)
    | _ :: _ :: _ => .error errDelTrailing
  else if command = str "PING" then
    .ok (.Ping (args.headD []))
  else if command = str "EXIT" ∨ command = str "QUIT" then
    .ok .Exit
  else
    .error (str "unknown command: " ++ command)

/-- `Request::parse` from src/server.rs: `splitn(3, " ")`, uppercase the
first piece, dispatch on it with the remaining pieces as arguments. -/
def Request.parse (input : Str) : Except Str Request :=
  dispatch (((splitn (' ') 3 input).headD []).map toAsciiUpper)
    (splitn (' ') 3 input).tail

/-- `Response::serialize` from src/server.rs. -/
def Response.serialize : Response → Str
  | .Value key value => str "GET " ++ key ++ str " == " ++ value
  | .Del key => str "DEL " ++ key
  | .Put key value => str "PUT " ++ key ++ [' '] ++ value
  | .Message msg => msg
  | .Error msg => str "error: " ++ msg

/-- The in-memory map of the `Database`. The Rust `HashMap` is modelled
as an association list kept duplicate-free by construction; only its
`get`/`insert`/`remove` observations matter. -/
abbrev Store := List (Str × Str)

namespace Database

/-- `HashMap::remove`: drop the binding of `key` if present. -/
def remove (m : Store) (key : Str) : Store :=
  m.filter (fun p => !(p.1 == key))

/-- `HashMap::insert`: insert or overwrite the binding of `key`. -/
def insert (m : Store) (key value : Str) : Store :=
  remove m key ++ [(key, value)]

/-- `Database::get`: `Ok(value)` when the key is bound, otherwise
`Err("Value not found")`. -/
def get (m : Store) (key : Str) : Except Str Str :=
  match m.find? (fun p => p.1 == key) with
  | some p => .ok p.2
  | none => .error (str "Value not found")

end Database

/-- The textual log record `format!("PUT {} {}", key, value)`. -/
def putRecord (key value : Str) : Str := str "PUT " ++ key ++ [' '] ++ value

/-- The textual log record `format!("DEL {}", key)`. -/
def delRecord (key : Str) : Str := str "DEL " ++ key

/-- The observable result of processing one line: the response sent
back, the resulting map, and the log records durably appended. -/
structure StepResult where
  response : Response
  map : Store
  appended : List Str
deriving DecidableEq

namespace Database

/-- The dispatch on the parsed request inside `Database::process_line`.
`write_log` is the source's flag (true for live traffic, false during
replay); `appendOk` tells whether the `append_line` call, if made,
succeeds (`writeln!` returning `Ok`). -/
def applyRequest (m : Store) (req : Request) (write_log appendOk : Bool) :
    StepResult :=
  match req with
  | .Get key =>
    match get m key with
    | .ok value => ⟨.Value key value, m, []⟩
    | .error _ => ⟨.Error (str "no key " ++ key), m, []⟩
  | .Del key =>
    if write_log then
      if appendOk then ⟨.Del key, remove m key, [delRecord key]⟩
      else ⟨.Error (str "Error writing to persist log"), m, []⟩
    else ⟨.Del key, remove m key, []⟩
  | .Put key value =>
    if write_log then
      if appendOk then ⟨.Put key value, insert m key value, [putRecord key value]⟩
      else ⟨.Error (str "Error writing to persist log"), m, []⟩
    else ⟨.Put key value, insert m key value, []⟩
  | .Ping msg => ⟨.Message (str "PONG: " ++ msg), m, []⟩
  | .Exit => ⟨.Error (str "EXIT COMMAND NOT IMPLEMENTED YET"), m, []⟩

/-- `Database::process_line`: parse the line, return an `Error` response
on parse failure (no map or log effect), otherwise dispatch. -/
def process_line (m : Store) (line : Str) (write_log appendOk : Bool) :
    StepResult :=
  match Request.parse line with
  | .error e => ⟨.Error e, m, []⟩
  | .ok req => applyRequest m req write_log appendOk

end Database

/-- Accumulated state of the startup replay loop in `init_database`:
the map built so far, every record appended to the log so far, and the
response produced (and printed) for each replayed line, in order. -/
structure ReplayResult where
  map : Store
  appended : List Str
  responses : List Response
deriving DecidableEq

/-- Run the `init_database` replay loop from a given accumulated state:
each line is processed with `write_log = false`. -/
def replayFrom (st : ReplayResult) (lines : List Str) : ReplayResult :=
  lines.foldl
    (fun acc line =>
      let r := Database.process_line acc.map line false true
      ⟨r.map, acc.appended ++ r.appended, acc.responses ++ [r.response]⟩)
    st

/-- `init_database` from src/server.rs: replay the given log lines into
an initially empty map. -/
def init_database (lines : List Str) : ReplayResult :=
  replayFrom ⟨[], [], []⟩ lines

/-- One processed line of live or replay traffic: the raw line, the
source's `write_log` flag, and whether a log append would succeed. -/
structure Step where
  line : Str
  write_log : Bool
  appendOk : Bool

/-- An accepted mutation: the store-changing effect of an accepted
Put or Delete command. -/
inductive Mutation
  | put (key value : Str)
  | del (key : Str)
deriving DecidableEq

/-- Apply one accepted mutation to the map (insert for Put, remove for
Delete). -/
def applyMutation (m : Store) : Mutation → Store
  | .put k v => Database.insert m k v
  | .del k => Database.remove m k

/-- The mutations accepted while processing one line: a parsed Put or
Del whose log append is not refused (replay lines, or live lines whose
append succeeds). Rejected lines, Get, Ping and Exit accept none. -/
def stepMutations (s : Step) : List Mutation :=
  match Request.parse s.line with
  | .ok (.Put k v) => if s.write_log && !s.appendOk then [] else [.put k v]
  | .ok (.Del k) => if s.write_log && !s.appendOk then [] else [.del k]
  | _ => []

/-- All mutations accepted over a sequence of processed lines. -/
def acceptedMutations : List Step → List Mutation
  | [] => []
  | s :: rest => stepMutations s ++ acceptedMutations rest

/-- The map after processing a sequence of lines with
`Database::process_line`. -/
def runMap (m : Store) : List Step → Store
  | [] => m
  | s :: rest =>
    runMap (Database.process_line m s.line s.write_log s.appendOk).map rest

/-! ### Tokenizer lemmas -/

lemma splitFirst_eq_none {c : Char} {s : Str} (h : c ∉ s) :
    splitFirst c s = none := by
  induction s with
  | nil => rfl
  | cons x xs ih =>
    simp only [List.mem_cons, not_or] at h
    rw [splitFirst, if_neg (fun hx => h.1 hx.symm), ih h.2]

lemma splitFirst_none_not_mem {c : Char} {s : Str}
    (h : splitFirst c s = none) : c ∉ s := by
  induction s with
  | nil => simp
  | cons x xs ih =>
    rw [splitFirst] at h
    split at h
    · exact absurd h (by simp)
    · rename_i hx
      rcases hsf : splitFirst c xs with _ | q
      · intro hmem
        rcases List.mem_cons.mp hmem with h1 | h2
        · exact hx h1.symm
        · exact ih hsf h2
      · rw [hsf] at h
        exact absurd h (by simp)

lemma splitFirst_spec {c : Char} :
    ∀ {s a b : Str}, splitFirst c s = some (a, b) → c ∉ a ∧ s = a ++ c :: b := by
  intro s
  induction s with
  | nil => intro a b h; exact absurd h (by simp [splitFirst])
  | cons x xs ih =>
    intro a b h
    rw [splitFirst] at h
    split at h
    · rename_i hx
      simp only [Option.some.injEq, Prod.mk.injEq] at h
      obtain ⟨ha, hb⟩ := h
      subst ha; subst hb; subst hx
      exact ⟨by simp, rfl⟩
    · rename_i hx
      rcases hsf : splitFirst c xs with _ | ⟨a2, b2⟩
      · rw [hsf] at h
        exact absurd h (by simp)
      · rw [hsf] at h
        simp only [Option.some.injEq, Prod.mk.injEq] at h
        obtain ⟨ha, hb⟩ := h
        obtain ⟨hna, hs⟩ := ih hsf
        subst ha; subst hb
        refine ⟨?_, by rw [List.cons_append, ← hs]⟩
        intro hmem
        rcases List.mem_cons.mp hmem with h1 | h2
        · exact hx h1.symm
        · exact hna h2

lemma splitFirst_append {c : Char} (b : Str) :
    ∀ {a : Str}, c ∉ a → splitFirst c (a ++ c :: b) = some (a, b) := by
  intro a
  induction a with
  | nil => intro _; simp [splitFirst]
  | cons x xs ih =>
    intro h
    simp only [List.mem_cons, not_or] at h
    rw [List.cons_append, splitFirst, if_neg (fun hx => h.1 hx.symm), ih h.2]

lemma splitn_three (c : Char) (s : Str) :
    splitn c 3 s =
      match splitFirst c s with
      | none => [s]
      | some (a, b) => a :: splitn c 2 b := rfl

lemma splitn_two (c : Char) (s : Str) :
    splitn c 2 s =
      match splitFirst c s with
      | none => [s]
      | some (a, b) => [a, b] := rfl

lemma splitn3_of_not_mem {s : Str} (h : (' ') ∉ s) :
    splitn (' ') 3 s = [s] := by
  rw [splitn_three, splitFirst_eq_none h]

lemma splitn2_of_not_mem {s : Str} (h : (' ') ∉ s) :
    splitn (' ') 2 s = [s] := by
  rw [splitn_two, splitFirst_eq_none h]

lemma splitn2_append (k rest : Str) (h : (' ') ∉ k) :
    splitn (' ') 2 (k ++ ' ' :: rest) = [k, rest] := by
  rw [splitn_two, splitFirst_append rest h]

lemma splitn3_verb (verb rest : Str) (h : (' ') ∉ verb) :
    splitn (' ') 3 (verb ++ ' ' :: rest) = verb :: splitn (' ') 2 rest := by
  rw [splitn_three, splitFirst_append rest h]

/-- The three possible shapes of the `splitn(3, " ")` tokenization:
one, two or three pieces; only the last piece may contain a space. -/
lemma splitn3_cases (s : Str) :
    (splitn (' ') 3 s = [s] ∧ (' ') ∉ s) ∨
    (∃ a b, splitn (' ') 3 s = [a, b] ∧ (' ') ∉ a ∧ (' ') ∉ b ∧
      s = a ++ ' ' :: b) ∨
    (∃ a b d, splitn (' ') 3 s = [a, b, d] ∧ (' ') ∉ a ∧ (' ') ∉ b ∧
      s = a ++ ' ' :: (b ++ ' ' :: d)) := by
  rcases hsf : splitFirst (' ') s with _ | ⟨a, rest⟩
  · exact Or.inl ⟨by rw [splitn_three, hsf], splitFirst_none_not_mem hsf⟩
  · obtain ⟨hna, hs⟩ := splitFirst_spec hsf
    rcases hsf2 : splitFirst (' ') rest with _ | ⟨b, d⟩
    · refine Or.inr (Or.inl ⟨a, rest, ?_, hna, splitFirst_none_not_mem hsf2, hs⟩)
      rw [splitn_three, hsf]
      show a :: splitn (' ') 2 rest = [a, rest]
      rw [splitn2_of_not_mem (splitFirst_none_not_mem hsf2)]
    · obtain ⟨hnb, hrest⟩ := splitFirst_spec hsf2
      refine Or.inr (Or.inr ⟨a, b, d, ?_, hna, hnb, by rw [hs, hrest]⟩)
      rw [splitn_three, hsf]
      show a :: splitn (' ') 2 rest = [a, b, d]
      rw [hrest, splitn2_append b d hnb]

/-! ### Parse lemmas -/

lemma parse_no_sep {s : Str} (h : (' ') ∉ s) :
    Request.parse s = dispatch (s.map toAsciiUpper) [] := by
  unfold Request.parse
  rw [splitn3_of_not_mem h]
  rfl

lemma parse_verb_args (verb rest : Str) (h : (' ') ∉ verb) :
    Request.parse (verb ++ ' ' :: rest) =
      dispatch (verb.map toAsciiUpper) (splitn (' ') 2 rest) := by
  unfold Request.parse
  rw [splitn3_verb verb rest h]
  rfl

lemma dispatch_GET (k : Str) : dispatch (str "GET") [k] = .ok (.Get k) := rfl

lemma dispatch_PUT (k v : Str) (r : List Str) :
    dispatch (str "PUT") (k :: v :: r) = .ok (.Put k v) := rfl

lemma dispatch_DEL (k : Str) : dispatch (str "DEL") [k] = .ok (.Del k) := rfl

lemma dispatch_PING (args : List Str) :
    dispatch (str "PING") args = .ok (.Ping (args.headD [])) := rfl

lemma dispatch_EXIT (args : List Str) :
    dispatch (str "EXIT") args = .ok .Exit := rfl

lemma dispatch_QUIT (args : List Str) :
    dispatch (str "QUIT") args = .ok .Exit := rfl

lemma dispatch_put_inv {cmd : Str} {args : List Str} {k v : Str}
    (h : dispatch cmd args = .ok (.Put k v)) :
    ∃ r, args = k :: v :: r := by
  rcases args with _ | ⟨a, _ | ⟨b, r⟩⟩ <;> unfold dispatch at h <;>
    repeat' split at h
  all_goals first
    | exact ⟨r, by simp_all⟩
    | simp_all

lemma dispatch_del_inv {cmd : Str} {args : List Str} {k : Str}
    (h : dispatch cmd args = .ok (.Del k)) :
    args = [k] := by
  rcases args with _ | ⟨a, _ | ⟨b, r⟩⟩ <;> unfold dispatch at h <;>
    repeat' split at h
  all_goals simp_all

/-- A key produced by a successful `PUT` parse contains no space: it is
the middle piece of the three-way split. -/
lemma parse_ok_put_key {line k v : Str}
    (h : Request.parse line = .ok (.Put k v)) : (' ') ∉ k := by
  unfold Request.parse at h
  rcases splitn3_cases line with ⟨hsp, _⟩ | ⟨a, b, hsp, _, hnb, _⟩ |
    ⟨a, b, d, hsp, _, hnb, _⟩
  · rw [hsp] at h
    obtain ⟨r, hr⟩ := dispatch_put_inv h
    simp at hr
  · rw [hsp] at h
    obtain ⟨r, hr⟩ := dispatch_put_inv h
    simp at hr
  · rw [hsp] at h
    obtain ⟨r, hr⟩ := dispatch_put_inv h
    simp at hr
    obtain ⟨hbk, _⟩ := hr
    exact hbk ▸ hnb

/-- A key produced by a successful `DEL` parse contains no space: it is
the final piece of a two-piece split. -/
lemma parse_ok_del_key {line k : Str}
    (h : Request.parse line = .ok (.Del k)) : (' ') ∉ k := by
  unfold Request.parse at h
  rcases splitn3_cases line with ⟨hsp, _⟩ | ⟨a, b, hsp, _, hnb, _⟩ |
    ⟨a, b, d, hsp, _, hnb, _⟩
  · rw [hsp] at h
    have hr := dispatch_del_inv h
    simp at hr
  · rw [hsp] at h
    have hr := dispatch_del_inv h
    simp at hr
    exact hr ▸ hnb
  · rw [hsp] at h
    have hr := dispatch_del_inv h
    simp at hr

/-! ### takeWhile lemmas for the PING text -/

lemma takeWhile_no_sep {s : Str} (h : (' ') ∉ s) :
    s.takeWhile (fun x => !(x == ' ')) = s := by
  induction s with
  | nil => rfl
  | cons x xs ih =>
    simp only [List.mem_cons, not_or] at h
    have hx : (!(x == ' ')) = true := by
      simp only [Bool.not_eq_eq_eq_not, Bool.not_true, beq_eq_false_iff_ne]
      exact fun hh => h.1 hh.symm
    rw [List.takeWhile_cons, if_pos hx, ih h.2]

lemma takeWhile_append_sep (b : Str) :
    ∀ {a : Str}, (' ') ∉ a →
      (a ++ ' ' :: b).takeWhile (fun x => !(x == ' ')) = a := by
  intro a
  induction a with
  | nil =>
    intro _
    rw [List.nil_append, List.takeWhile_cons, if_neg (by decide)]
  | cons x xs ih =>
    intro h
    simp only [List.mem_cons, not_or] at h
    have hx : (!(x == ' ')) = true := by
      simp only [Bool.not_eq_eq_eq_not, Bool.not_true, beq_eq_false_iff_ne]
      exact fun hh => h.1 hh.symm
    rw [List.cons_append, List.takeWhile_cons, if_pos hx, ih h.2]

/-- The first piece of the two-way split is the text before the first
space of the input. -/
lemma splitn2_headD_takeWhile (s : Str) :
    (splitn (' ') 2 s).headD [] = s.takeWhile (fun x => !(x == ' ')) := by
  rcases hsf : splitFirst (' ') s with _ | ⟨a, b⟩
  · rw [splitn_two, hsf]
    exact (takeWhile_no_sep (splitFirst_none_not_mem hsf)).symm
  · obtain ⟨hna, hs⟩ := splitFirst_spec hsf
    rw [splitn_two, hsf]
    show a = _
    rw [hs, takeWhile_append_sep b hna]

/-! ### Store lemmas -/

lemma find_remove_self (m : Store) (k : Str) :
    (Database.remove m k).find? (fun p => p.1 == k) = none := by
  induction m with
  | nil => rfl
  | cons p t ih =>
    unfold Database.remove at ih ⊢
    rw [List.filter_cons]
    by_cases hp : p.1 = k
    · simp only [hp, beq_self_eq_true, Bool.not_true, if_neg]
      exact ih
    · have hb : (p.1 == k) = false := beq_eq_false_iff_ne.mpr hp
      simp only [hb, Bool.not_false, if_pos, List.find?_cons, hb]
      exact ih

lemma get_remove_self (m : Store) (k : Str) :
    Database.get (Database.remove m k) k = .error (str "Value not found") := by
  unfold Database.get
  rw [find_remove_self]

/-! ### Claim theorems -/

/-- Claim C1, counterexample: `init_database` replays a log whose first
line `FOO bar` fails to parse, yet the replay is not terminated — the
bad line yields a `Failure` diagnostic and the following `PUT a 1` is
still applied, so the process proceeds past the bad line instead of
treating it as fatal. -/
theorem claim_C1_counterexample :
    init_database [str "FOO bar", str "PUT a 1"] =
      ⟨[(str "a", str "1")], [],
        [.Error (str "unknown command: FOO"),
          .Put (str "a") (str "1")]⟩ := by decide

/-- Claim C1 as amended: during startup replay a line that fails to
parse is not fatal; it contributes exactly one `Failure` diagnostic,
leaves the map untouched, appends nothing to the log, and replay
continues with the remaining lines. -/
theorem claim_C1_amended :
    ∀ (st : ReplayResult) (line : Str) (lines : List Str) (e : Str),
      Request.parse line = .error e →
      replayFrom st (line :: lines) =
        replayFrom ⟨st.map, st.appended, st.responses ++ [.Error e]⟩ lines := by
  intro st line lines e h
  unfold replayFrom
  rw [List.foldl_cons]
  simp [Database.process_line, h]

/-- Claim C1 amended, witness at a concrete replay. -/
theorem claim_C1_amended_witness :
    Request.parse (str "FOO") = .error (str "unknown command: FOO") ∧
    replayFrom ⟨[], [], []⟩ [str "FOO", str "PUT a 1"] =
      replayFrom ⟨[], [], [.Error (str "unknown command: FOO")]⟩
        [str "PUT a 1"] :=
  ⟨by decide,
    claim_C1_amended ⟨[], [], []⟩ (str "FOO") [str "PUT a 1"]
      (str "unknown command: FOO") (by decide)⟩

/-- Claim C2: for a live Put or Delete the store is mutated only after
a successful append — a failed append yields
`Failure("Error writing to persist log")` with the store untouched and
nothing appended, a successful append mutates the store, appends the
record and yields the `Put`/`Deleted` outcome. -/
theorem claim_C2 :
    ∀ (m : Store) (k v : Str),
      Database.applyRequest m (.Put k v) true false =
        ⟨.Error (str "Error writing to persist log"), m, []⟩ ∧
      Database.applyRequest m (.Put k v) true true =
        ⟨.Put k v, Database.insert m k v, [putRecord k v]⟩ ∧
      Database.applyRequest m (.Del k) true false =
        ⟨.Error (str "Error writing to persist log"), m, []⟩ ∧
      Database.applyRequest m (.Del k) true true =
        ⟨.Del k, Database.remove m k, [delRecord k]⟩ :=
  fun _ _ _ => ⟨rfl, rfl, rfl, rfl⟩

/-- Claim C3: replaying `PUT a 1`, `PUT b 2`, `DEL a` leaves the store
holding exactly `{b: 2}` with nothing appended to the log; moreover
processing any line with the replay flag appends nothing and never
consults the append result. -/
theorem claim_C3 :
    init_database [str "PUT a 1", str "PUT b 2", str "DEL a"] =
      ⟨[(str "b", str "2")], [],
        [.Put (str "a") (str "1"), .Put (str "b") (str "2"),
          .Del (str "a")]⟩ ∧
    ∀ (m : Store) (line : Str) (ok : Bool),
      (Database.process_line m line false ok).appended = [] ∧
      Database.process_line m line false ok =
        Database.process_line m line false true := by
  refine ⟨by decide, ?_⟩
  intro m line ok
  unfold Database.process_line
  cases h : Request.parse line with
  | error e => exact ⟨rfl, rfl⟩
  | ok req =>
    cases req with
    | Get key =>
      rcases hg : Database.get m key with e | v <;>
        simp [Database.applyRequest, hg]
    | Del key => exact ⟨rfl, rfl⟩
    | Put key value => exact ⟨rfl, rfl⟩
    | Ping msg => exact ⟨rfl, rfl⟩
    | Exit => exact ⟨rfl, rfl⟩

/-- Claim C4, counterexample: a tab is not accepted as a token
separator — `GET<tab>a` is rejected as an unknown command instead of
parsing as `Get "a"`, so "any whitespace separator" fails. -/
theorem claim_C4_counterexample :
    Request.parse (str "GET\ta") ≠ .ok (.Get (str "a")) ∧
    Request.parse (str "GET\ta") =
      .error (str "unknown command: GET\tA") := by decide

/-- Claim C4 as amended: parse splits the line on the single ASCII
space character (not arbitrary whitespace) into at most three tokens —
an ASCII-case-insensitive command word, a key, and an optional value
that is the whole remainder verbatim, embedded spaces included. -/
theorem claim_C4_amended :
    ∀ (verbP verbG key value : Str),
      (' ') ∉ verbP → (' ') ∉ verbG → (' ') ∉ key →
      List.map toAsciiUpper verbP = str "PUT" →
      List.map toAsciiUpper verbG = str "GET" →
      Request.parse (verbP ++ ' ' :: (key ++ ' ' :: value)) =
        .ok (.Put key value) ∧
      Request.parse (verbG ++ ' ' :: key) = .ok (.Get key) := by
  intro verbP verbG key value hvP hvG hk hcP hcG
  constructor
  · rw [parse_verb_args _ _ hvP, hcP, splitn2_append _ _ hk, dispatch_PUT]
  · rw [parse_verb_args _ _ hvG, hcG, splitn2_of_not_mem hk, dispatch_GET]

/-- Claim C4 amended, witness: mixed-case verbs, a value with an
embedded space. -/
theorem claim_C4_amended_witness :
    ((' ') ∉ str "pUt") ∧ ((' ') ∉ str "gEt") ∧ ((' ') ∉ str "k") ∧
    List.map toAsciiUpper (str "pUt") = str "PUT" ∧
    List.map toAsciiUpper (str "gEt") = str "GET" ∧
    Request.parse (str "pUt" ++ ' ' :: (str "k" ++ ' ' :: str "a b")) =
      .ok (.Put (str "k") (str "a b")) ∧
    Request.parse (str "gEt" ++ ' ' :: str "k") = .ok (.Get (str "k")) := by
  refine ⟨by decide, by decide, by decide, by decide, by decide, ?_⟩
  exact claim_C4_amended (str "pUt") (str "gEt") (str "k") (str "a b")
    (by decide) (by decide) (by decide) (by decide) (by decide)

/-- Claim C5, counterexample: `PING a b` parses to `Ping "a"`, not to
`Ping "a b"` — the PING text is only the next space-separated token,
not all the content after the verb. -/
theorem claim_C5_counterexample :
    Request.parse (str "PING a b") = .ok (.Ping (str "a")) ∧
    Request.parse (str "PING a b") ≠ .ok (.Ping (str "a b")) := by decide

/-- Claim C5 as amended: a line whose verb is PING (any ASCII case)
never fails to parse; its text is the first space-separated token after
the verb (anything later is ignored), defaulting to empty; processing
`Ping(text)` touches neither store nor log and answers
`Info("PONG: <text>")`. -/
theorem claim_C5_amended :
    ∀ (verb rest text : Str) (m : Store) (wl ok : Bool),
      (' ') ∉ verb → List.map toAsciiUpper verb = str "PING" →
      Request.parse verb = .ok (.Ping []) ∧
      Request.parse (verb ++ ' ' :: rest) =
        .ok (.Ping (rest.takeWhile (fun x => !(x == ' ')))) ∧
      Database.applyRequest m (.Ping text) wl ok =
        ⟨.Message (str "PONG: " ++ text), m, []⟩ := by
  intro verb rest text m wl ok hv hcmd
  refine ⟨?_, ?_, rfl⟩
  · rw [parse_no_sep hv, hcmd, dispatch_PING]
    rfl
  · rw [parse_verb_args _ _ hv, hcmd, dispatch_PING, splitn2_headD_takeWhile]

/-- Claim C5 amended, witness: lowercase verb, text with a second token
that is ignored, and the store/log-free processing. -/
theorem claim_C5_amended_witness :
    ((' ') ∉ str "piNg") ∧
    List.map toAsciiUpper (str "piNg") = str "PING" ∧
    (Request.parse (str "piNg") = .ok (.Ping []) ∧
      Request.parse (str "piNg" ++ ' ' :: str "a b") =
        .ok (.Ping ((str "a b").takeWhile (fun x => !(x == ' ')))) ∧
      Database.applyRequest [] (.Ping (str "hi")) true true =
        ⟨.Message (str "PONG: " ++ str "hi"), [], []⟩) :=
  ⟨by decide, by decide,
    claim_C5_amended (str "piNg") (str "a b") (str "hi") [] true true
      (by decide) (by decide)⟩

/-- Per-line form of the C6 invariant: the map produced by one
processed line is the fold of that line's accepted mutations. -/
lemma step_map (m : Store) (s : Step) :
    (Database.process_line m s.line s.write_log s.appendOk).map =
      List.foldl applyMutation m (stepMutations s) := by
  unfold Database.process_line stepMutations
  cases h : Request.parse s.line with
  | error e => rfl
  | ok req =>
    cases req with
    | Get key =>
      rcases hg : Database.get m key with e | v <;>
        simp [Database.applyRequest, hg]
    | Del key =>
      cases hwl : s.write_log with
      | false => simp [Database.applyRequest, applyMutation]
      | true =>
        cases hok : s.appendOk <;>
          simp [Database.applyRequest, applyMutation]
    | Put key value =>
      cases hwl : s.write_log with
      | false => simp [Database.applyRequest, applyMutation]
      | true =>
        cases hok : s.appendOk <;>
          simp [Database.applyRequest, applyMutation]
    | Ping msg => rfl
    | Exit => rfl

/-- Claim C6: after any sequence of processed lines, the store equals
the initial map with exactly the accepted Put/Delete mutations applied
in order; rejected lines, Get, Ping and Exit contribute nothing. -/
theorem claim_C6 :
    ∀ (steps : List Step) (m : Store),
      runMap m steps = List.foldl applyMutation m (acceptedMutations steps) := by
  intro steps
  induction steps with
  | nil => intro m; rfl
  | cons s rest ih =>
    intro m
    show runMap (Database.process_line m s.line s.write_log s.appendOk).map
        rest =
      List.foldl applyMutation m (stepMutations s ++ acceptedMutations rest)
    rw [List.foldl_append, ← step_map, ih]

/-- Claim C7: `DEL k` (append succeeding) followed by `GET k` yields
`Failure("no key k")` for every prior store contents, and deleting an
absent key still answers `Deleted(k)`. -/
theorem claim_C7 :
    ∀ (m : Store) (k : Str) (wl ok : Bool), (' ') ∉ k →
      (Database.process_line m (str "DEL" ++ ' ' :: k) true true).response =
        .Del k ∧
      (Database.process_line
          (Database.process_line m (str "DEL" ++ ' ' :: k) true true).map
          (str "GET" ++ ' ' :: k) wl ok).response =
        .Error (str "no key " ++ k) := by
  intro m k wl ok hk
  have hdel : Request.parse (str "DEL" ++ ' ' :: k) = .ok (.Del k) := by
    rw [parse_verb_args (str "DEL") k (by decide), splitn2_of_not_mem hk]
    have hup : List.map toAsciiUpper (str "DEL") = str "DEL" := by decide
    rw [hup, dispatch_DEL]
  have hget : Request.parse (str "GET" ++ ' ' :: k) = .ok (.Get k) := by
    rw [parse_verb_args (str "GET") k (by decide), splitn2_of_not_mem hk]
    have hup : List.map toAsciiUpper (str "GET") = str "GET" := by decide
    rw [hup, dispatch_GET]
  have h1 : Database.process_line m (str "DEL" ++ ' ' :: k) true true =
      ⟨.Del k, Database.remove m k, [delRecord k]⟩ := by
    unfold Database.process_line
    rw [hdel]
    rfl
  refine ⟨by rw [h1], ?_⟩
  rw [h1]
  simp only [Database.process_line, hget]
  simp only [Database.applyRequest, get_remove_self]

/-- Claim C7, witness: delete a present key, then a GET on it fails. -/
theorem claim_C7_witness :
    ((' ') ∉ str "a") ∧
    ((Database.process_line [(str "a", str "1")]
        (str "DEL" ++ ' ' :: str "a") true true).response = .Del (str "a") ∧
      (Database.process_line
          (Database.process_line [(str "a", str "1")]
            (str "DEL" ++ ' ' :: str "a") true true).map
          (str "GET" ++ ' ' :: str "a") true true).response =
        .Error (str "no key " ++ str "a")) :=
  ⟨by decide, claim_C7 [(str "a", str "1")] (str "a") true true (by decide)⟩

/-- Claim C8: a line whose verb is EXIT or QUIT (any ASCII case) parses
to `Exit` without consulting further arguments, and processing `Exit`
answers `Failure("EXIT COMMAND NOT IMPLEMENTED YET")` with no store or
log effect. -/
theorem claim_C8 :
    ∀ (verb rest : Str) (m : Store) (wl ok : Bool),
      (' ') ∉ verb →
      (List.map toAsciiUpper verb = str "EXIT" ∨
        List.map toAsciiUpper verb = str "QUIT") →
      Request.parse verb = .ok .Exit ∧
      Request.parse (verb ++ ' ' :: rest) = .ok .Exit ∧
      Database.applyRequest m .Exit wl ok =
        ⟨.Error (str "EXIT COMMAND NOT IMPLEMENTED YET"), m, []⟩ := by
  intro verb rest m wl ok hv hcmd
  refine ⟨?_, ?_, rfl⟩
  · rw [parse_no_sep hv]
    rcases hcmd with h | h <;> rw [h]
    · exact dispatch_EXIT []
    · exact dispatch_QUIT []
  · rw [parse_verb_args verb rest hv]
    rcases hcmd with h | h <;> rw [h]
    · exact dispatch_EXIT _
    · exact dispatch_QUIT _

/-- Claim C8, witness: mixed-case `qUiT` with trailing arguments. -/
theorem claim_C8_witness :
    ((' ') ∉ str "qUiT") ∧
    (List.map toAsciiUpper (str "qUiT") = str "EXIT" ∨
      List.map toAsciiUpper (str "qUiT") = str "QUIT") ∧
    (Request.parse (str "qUiT") = .ok .Exit ∧
      Request.parse (str "qUiT" ++ ' ' :: str "now") = .ok .Exit ∧
      Database.applyRequest [] .Exit false false =
        ⟨.Error (str "EXIT COMMAND NOT IMPLEMENTED YET"), [], []⟩) :=
  ⟨by decide, by decide,
    claim_C8 (str "qUiT") (str "now") [] false false (by decide) (by decide)⟩

/-- Claim C9: the textual log record written for any Put or Del command
that parse can produce re-parses to exactly the same command — the log
encoding and the parser round-trip, embedded spaces and empty values
included. -/
theorem claim_C9 :
    ∀ (lineP lineD k v d : Str),
      Request.parse lineP = .ok (.Put k v) →
      Request.parse lineD = .ok (.Del d) →
      Request.parse (putRecord k v) = .ok (.Put k v) ∧
      Request.parse (delRecord d) = .ok (.Del d) := by
  intro lineP lineD k v d hP hD
  have hk := parse_ok_put_key hP
  have hd := parse_ok_del_key hD
  constructor
  · have hshape : putRecord k v = str "PUT" ++ ' ' :: (k ++ ' ' :: v) := by
      have hlit : str "PUT " = str "PUT" ++ [' '] := by decide
      simp [putRecord, hlit]
    rw [hshape, parse_verb_args (str "PUT") _ (by decide),
      splitn2_append _ _ hk]
    have hup : List.map toAsciiUpper (str "PUT") = str "PUT" := by decide
    rw [hup, dispatch_PUT]
  · have hshape : delRecord d = str "DEL" ++ ' ' :: d := by
      have hlit : str "DEL " = str "DEL" ++ [' '] := by decide
      simp [delRecord, hlit]
    rw [hshape, parse_verb_args (str "DEL") _ (by decide),
      splitn2_of_not_mem hd]
    have hup : List.map toAsciiUpper (str "DEL") = str "DEL" := by decide
    rw [hup, dispatch_DEL]

/-- Claim C9, witness: a lowercase live `PUT` whose value embeds a
space, and a `DEL` of the empty key. -/
theorem claim_C9_witness :
    Request.parse (str "put x a b") = .ok (.Put (str "x") (str "a b")) ∧
    Request.parse (str "DEL ") = .ok (.Del []) ∧
    (Request.parse (putRecord (str "x") (str "a b")) =
        .ok (.Put (str "x") (str "a b")) ∧
      Request.parse (delRecord []) = .ok (.Del [])) :=
  ⟨by decide, by decide,
    claim_C9 (str "put x a b") (str "DEL ") (str "x") (str "a b") []
      (by decide) (by decide)⟩

/-- Claim C10: empty key tokens are reachable — `GET ` (trailing space)
parses as `Get ""` and `PUT  v` (two spaces) parses as
`Put "" "v"`, with no missing-argument error. -/
theorem claim_C10 :
    Request.parse (str "GET ") = .ok (.Get []) ∧
    Request.parse (str "PUT  v") = .ok (.Put [] (str "v")) := by decide
